import Mathlib

/-!
Shallow embedding of the NOR_Analysis pipeline (manual_DI.py, auto_DI_format.py,
manual_DI_format.py): grouping rows by object identifier, merging two object
sub-tables side by side, layout detection, bout extraction from timestamp
streams, and Discrimination Index (DI) computation.

Numeric cell values are modelled as rationals; a missing value (NaN) is the
dedicated constructor `Cell.blank`.
-/

namespace NORAnalysis

/-- A spreadsheet cell as seen by the DI pipeline: missing (NaN), numeric,
or textual. -/
inductive Cell where
  | blank : Cell
  | num (q : ℚ) : Cell
  | str (s : String) : Cell
deriving DecidableEq, Repr

/-- Characters kept by the cleanup in `clean_timestamps`
(manual_DI.py line 261): `c.isdigit() or c == '.'`. -/
def isNumChar (c : Char) : Bool := c.isDigit || c == '.'

/-- `''.join(c for c in ts if c.isdigit() or c == '.')` on the characters of
a string (manual_DI.py line 261). -/
def stripNonNumeric (s : String) : List Char := s.toList.filter isNumChar

/-- Value of a digit string read left to right in base 10. -/
def digitsVal (cs : List Char) : ℕ := cs.foldl (fun a c => 10 * a + (c.toNat - 48)) 0

/-- Digits before the first dot of a cleaned string. -/
def intPart (cs : List Char) : List Char := cs.takeWhile (fun c => c != '.')

/-- Digits after the first dot of a cleaned string. -/
def fracPart (cs : List Char) : List Char := (cs.dropWhile (fun c => c != '.')).drop 1

/-- Python `float` applied to a string made only of digits and dots
(manual_DI.py line 263): it succeeds exactly when the string holds at least
one digit and at most one dot, giving integer part plus decimal fraction;
otherwise `float` raises `ValueError`. -/
def parseCleaned (cs : List Char) : Option ℚ :=
  if cs.any Char.isDigit && cs.count '.' ≤ 1 then
    some ((digitsVal (intPart cs) : ℚ) + (digitsVal (fracPart cs) : ℚ) / 10 ^ (fracPart cs).length)
  else none

/-- `clean_timestamps` (manual_DI.py lines 252-269). Returns the cleaned
numeric list together with the number of "Could not convert" warnings
printed. A missing value is skipped; a numeric value is kept as is
(`float(ts)`); a textual value is stripped to digits and dots, skipped when
the stripped string is empty (`if cleaned_str:`), parsed otherwise, and the
`ValueError` branch prints the warning and drops the value. -/
def clean_timestamps : List Cell → List ℚ × ℕ
  | [] => ([], 0)
  | c :: rest =>
    let r := clean_timestamps rest
    match c with
    | .blank => r
    | .num q => (q :: r.1, r.2)
    | .str s =>
      let t := stripNonNumeric s
      if t.isEmpty then r
      else
        match parseCleaned t with
        | some q => (q :: r.1, r.2)
        | none => (r.1, r.2 + 1)

/-- `calculate_bout_durations` (manual_DI.py lines 182-195): walk the list
two positions at a time (`range(0, len(timestamps) - 1, 2)`) and record
`timestamps[i + 1] - timestamps[i]`. The inputs come from
`clean_timestamps`, so the `pd.notna` guards on both elements always hold
here. A trailing unpaired element falls outside the range and is dropped. -/
def calculate_bout_durations : List ℚ → List ℚ
  | t0 :: t1 :: rest => (t1 - t0) :: calculate_bout_durations rest
  | _ => []

/-- The per-sheet metric aggregate built in `process_worksheet_for_di`
(manual_DI.py lines 278-287), before rounding for display. -/
structure Metrics where
  obj1Total : ℚ
  obj2Total : ℚ
  tet : ℚ
  di : ℚ
deriving DecidableEq, Repr

/-- Totals, TET and DI from two duration sequences (manual_DI.py lines
278-287): `sum(ds) if ds else 0` for each total, their sum as TET, and
`(t1 - t2) / tet` guarded by `tet > 0`, else `0`. -/
def computeMetrics (d1 d2 : List ℚ) : Metrics :=
  let t1 := if d1.isEmpty then 0 else d1.sum
  let t2 := if d2.isEmpty then 0 else d2.sum
  let tet := t1 + t2
  ⟨t1, t2, tet, if 0 < tet then (t1 - t2) / tet else 0⟩

/-- Python 3 `round` to an integer: round half to even (banker's rounding),
idealised over exact rationals. -/
def roundHalfEven (x : ℚ) : ℤ :=
  let f := Rat.floor x
  let r := x - (f : ℚ)
  if r < 1 / 2 then f
  else if 1 / 2 < r then f + 1
  else if f % 2 = 0 then f else f + 1

/-- Python `round(x, nd)` (manual_DI.py lines 290-293), idealised over exact
rationals. -/
def pyRound (nd : ℕ) (x : ℚ) : ℚ := (roundHalfEven (x * 10 ^ nd) : ℚ) / 10 ^ nd

/-- The per-sheet summary dictionary returned by `process_worksheet_for_di`
(manual_DI.py lines 295-303): rounded display values plus the raw duration
lists. -/
structure Summary where
  sheetName : String
  obj1Exploration : ℚ
  obj2Exploration : ℚ
  tet : ℚ
  di : ℚ
  obj1Durations : List ℚ
  obj2Durations : List ℚ
deriving DecidableEq, Repr

/-- A column header: a value, or missing (`pd.isna(col)`). -/
inductive Header where
  | named (s : String)
  | missing
deriving DecidableEq, Repr

/-- A worksheet as `process_worksheet_for_di` sees it: a list of columns,
each a header with its cell values in row order. -/
structure DF where
  cols : List (Header × List Cell)
deriving DecidableEq, Repr

/-- `s.startswith('empty_')` on the characters of `s`. -/
def startsWithEmpty (s : String) : Bool := s.toList.take 6 == "empty_".toList

/-- `s.strip() == ''`: true exactly when every character is whitespace. -/
def stripIsBlank (s : String) : Bool := s.toList.all Char.isWhitespace

/-- The filler-column test of manual_DI.py line 214:
`str(col).startswith('empty_') or pd.isna(col) or str(col).strip() == ''`. -/
def isFillerHeader (h : Header) : Bool :=
  match h with
  | .missing => true
  | .named s => startsWithEmpty s || stripIsBlank s

/-- Index of the first filler header, if any (manual_DI.py lines 213-217:
`empty_col_start` is set at the first match and `has_empty_columns` records
that some column matched). -/
def firstFillerIdx : List Header → Option ℕ
  | [] => none
  | h :: rest => if isFillerHeader h then some 0 else (firstFillerIdx rest).map (· + 1)

/-- Layout detection (manual_DI.py lines 208-219): `some i` means the
formatted branch is taken with `empty_col_start = i`; `none` means the
legacy branch. -/
def detectSplit (df : DF) : Option ℕ := firstFillerIdx (df.cols.map Prod.fst)

/-- `.dropna()` on one column. -/
def dropna (vs : List Cell) : List Cell := vs.filter (fun c => c != Cell.blank)

/-- Raw timestamp extraction of manual_DI.py lines 219-249. In the
formatted branch, object 1 comes from column 0 of `df.iloc[:, :i]` (an
`IndexError`, modelled as `none`, when `i = 0` leaves that slice without
columns) and object 2 from column `i + 4` when `i + 4 < ncols`, else `[]`.
In the legacy branch, object 1 comes from column 0 (`IndexError` when the
frame has no columns) and object 2 from column 7 when `ncols > 7`, else
`[]`. -/
def extractTimestamps (df : DF) : Option (List Cell × List Cell) :=
  match detectSplit df with
  | some i =>
    match (df.cols.take i).head? with
    | none => none
    | some c1 => some (dropna c1.2, ((df.cols[i + 4]?).map fun c => dropna c.2).getD [])
  | none =>
    match df.cols.head? with
    | none => none
    | some c1 => some (dropna c1.2, ((df.cols[7]?).map fun c => dropna c.2).getD [])

/-- `process_worksheet_for_di` (manual_DI.py lines 197-303): extract the two
raw timestamp columns, clean them, pair them into bout durations, aggregate
the metrics, and round the display fields. `none` models the uncaught
`IndexError` of the extraction step. -/
def process_worksheet_for_di (df : DF) (sheetName : String) : Option Summary :=
  (extractTimestamps df).map fun ts =>
    let d1 := calculate_bout_durations (clean_timestamps ts.1).1
    let d2 := calculate_bout_durations (clean_timestamps ts.2).1
    let m := computeMetrics d1 d2
    ⟨sheetName, pyRound 1 m.obj1Total, pyRound 1 m.obj2Total, pyRound 1 m.tet,
      pyRound 2 m.di, d1, d2⟩

/-- The per-sheet loop of `calculate_discrimination_index` (manual_DI.py
lines 454-472): every sheet except `"Consolidated Data"` is processed in
order; a sheet whose processing raises is caught, logged and skipped, and
the loop continues. The returned list is `all_summaries`. -/
def calculate_discrimination_index (wb : List (String × DF)) : List Summary :=
  (wb.filter fun s => s.1 != "Consolidated Data").foldl
    (fun acc s =>
      match process_worksheet_for_di s.2 s.1 with
      | some summary => acc ++ [summary]
      | none => acc) []

/-- An `ObjectGroup` sub-table as handled by the merger
(`process_excel_by_object_id`): named columns with values in row order. -/
structure GDF where
  cols : List (String × List Cell)
deriving DecidableEq, Repr

/-- Row count of a group: the length of its first column (groups produced
by `groupby` have equal-length columns). -/
def nRows (g : GDF) : ℕ :=
  match g.cols with
  | [] => 0
  | c :: _ => c.2.length

/-- Pandas `combined_df[name] = ''` with a scalar (manual_DI.py line 159):
when a column of that name exists its values are replaced in place, keeping
its position; otherwise a new column is appended on the right. -/
def setEmptyCol (g : GDF) (name : String) : GDF :=
  let fill := List.replicate (nRows g) (Cell.str "")
  if g.cols.any fun c => c.1 == name then
    ⟨g.cols.map fun c => if c.1 == name then (c.1, fill) else c⟩
  else ⟨g.cols ++ [(name, fill)]⟩

/-- The names written by `for i in range(4): combined_df[f'empty_{i+1}'] = ''`
(manual_DI.py lines 158-159). -/
def emptyColNames : List String := ["empty_1", "empty_2", "empty_3", "empty_4"]

/-- The four assignments of manual_DI.py lines 158-159 in loop order. -/
def addEmptyCols (g : GDF) : GDF := emptyColNames.foldl setEmptyCol g

/-- Reindexing a column to the union range index: pad with NaN. -/
def padTo (n : ℕ) (vs : List Cell) : List Cell := vs ++ List.replicate (n - vs.length) Cell.blank

/-- `pd.concat([a, b], axis=1)` after both frames had `reset_index(drop=True)`
(manual_DI.py lines 162-168): columns side by side, rows aligned by
position, the shorter frame padded with missing values. -/
def concatCols (a b : GDF) : GDF :=
  let n := max (nRows a) (nRows b)
  ⟨(a.cols.map fun c => (c.1, padTo n c.2)) ++ (b.cols.map fun c => (c.1, padTo n c.2))⟩

/-- The merge of one stem's sorted sheet list (manual_DI.py lines 148-168):
start from the first group's data; when a second exists, append the four
empty columns and concatenate the second group on the right. Any third or
later key in the list is ignored. -/
def mergeStem (gs : List GDF) : GDF :=
  match gs with
  | [] => ⟨[]⟩
  | [g] => g
  | g1 :: g2 :: _ => concatCols (addEmptyCols g1) g2

/-- Whether the characters start with a match of the regex `_obj_[12]`. -/
def matchesObjPat (cs : List Char) : Bool :=
  cs.take 6 == "_obj_1".toList || cs.take 6 == "_obj_2".toList

/-- Characters before the first match of `_obj_[12]`. -/
def stemCharsAux : List Char → List Char
  | [] => []
  | c :: rest => if matchesObjPat (c :: rest) then [] else c :: stemCharsAux rest

/-- `re.split(r'_obj_[12]', sheet_key)[0]` (manual_DI.py line 140): the
prefix of the key before the first occurrence of `_obj_1` or `_obj_2`. -/
def stemOf (k : String) : String := ⟨stemCharsAux k.toList⟩

/-- The key `f"{sheet_name}_obj_{object_id}"` built for one `groupby` group
(manual_DI.py line 123), for a numeric identifier. -/
def keyFor (sheetName : String) (objectId : ℕ) : String :=
  sheetName ++ "_obj_" ++ toString objectId

/-- One step of filling the insertion-ordered `defaultdict(list)`
`sheet_groups` (manual_DI.py lines 137-141). -/
def addToGroups (gs : List (String × List String)) (stem k : String) :
    List (String × List String) :=
  match gs with
  | [] => [(stem, [k])]
  | (s, ks) :: rest =>
    if s == stem then (s, ks ++ [k]) :: rest
    else (s, ks) :: addToGroups rest stem k

/-- `sheet_groups` built from the separated-data keys in insertion order
(manual_DI.py lines 137-141). -/
def buildGroups (keys : List String) : List (String × List String) :=
  keys.foldl (fun gs k => addToGroups gs (stemOf k) k) []

/-- Dictionary lookup `separated_data[sheet_key]`. -/
def lookupKey (sd : List (String × GDF)) (k : String) : Option GDF :=
  (sd.find? fun e => e.1 == k).map Prod.snd

/-- Python string comparison: lexicographic on code points. -/
def charListLe : List Char → List Char → Bool
  | [], _ => true
  | _ :: _, [] => false
  | a :: as, b :: bs => if a < b then true else if b < a then false else charListLe as bs

/-- `a <= b` for Python strings. -/
def strLe (a b : String) : Bool := charListLe a.toList b.toList

/-- Stable insertion into a lexicographically sorted list of strings. -/
def insertSorted (x : String) : List String → List String
  | [] => [x]
  | y :: ys => if strLe y x then y :: insertSorted x ys else x :: y :: ys

/-- `sheet_list.sort()` (manual_DI.py line 150): stable lexicographic sort,
modelled by insertion sort. -/
def sortStrings (l : List String) : List String := l.foldr insertSorted []

/-- Steps 2 and 3 of `process_excel_by_object_id` (manual_DI.py lines
136-171) on the in-memory `separated_data` association list: group the keys
by stem, sort each stem's key list, and merge each group into one output
sheet named by the stem. -/
def process_excel_by_object_id (sd : List (String × GDF)) : List (String × GDF) :=
  (buildGroups (sd.map Prod.fst)).map fun g =>
    (g.1, mergeStem ((sortStrings g.2).filterMap (lookupKey sd)))

/-- The key list accumulated for one stem in `sheet_groups` (proof
helper). -/
def entryOf (s : String) (gs : List (String × List String)) : List String :=
  ((gs.find? fun e => e.1 == s).map Prod.snd).getD []

theorem calculate_bout_durations_get : ∀ (l : List ℚ) (k : ℕ),
    (calculate_bout_durations l)[k]? =
      l[2 * k]?.bind fun a => l[2 * k + 1]?.map fun b => b - a
  | [], k => by simp [calculate_bout_durations]
  | [a], k => by cases k <;> simp [calculate_bout_durations]
  | a :: b :: rest, 0 => by simp [calculate_bout_durations]
  | a :: b :: rest, (n + 1) => by
      have ih := calculate_bout_durations_get rest n
      have e1 : 2 * (n + 1) = 2 * n + 1 + 1 := by ring
      have e2 : 2 * (n + 1) + 1 = 2 * n + 1 + 1 + 1 := by ring
      simp [calculate_bout_durations, e1, e2, ih]

theorem calculate_bout_durations_length : ∀ l : List ℚ,
    (calculate_bout_durations l).length = l.length / 2
  | [] => rfl
  | [_] => by simp [calculate_bout_durations]
  | _ :: _ :: rest => by
      have ih := calculate_bout_durations_length rest
      simp [calculate_bout_durations, ih]
      omega

/-- Claim C1: bout extraction pairs positions (0,1), (2,3), …, each bout's
duration is the later-index value minus the earlier-index value, an odd
trailing element is dropped, and `pairDurations([1,3,5,9]) = [2,4]`,
`pairDurations([1,3,5]) = [2]`. -/
theorem c1_bout_pairing :
    (∀ (l : List ℚ) (k : ℕ),
      (calculate_bout_durations l)[k]? =
        l[2 * k]?.bind fun a => l[2 * k + 1]?.map fun b => b - a) ∧
    (∀ l : List ℚ, (calculate_bout_durations l).length = l.length / 2) ∧
    calculate_bout_durations [1, 3, 5, 9] = [2, 4] ∧
    calculate_bout_durations [1, 3, 5] = [2] := by
  refine ⟨calculate_bout_durations_get, calculate_bout_durations_length, ?_, ?_⟩ <;>
    · simp [calculate_bout_durations]
      norm_num

/-- Claim C2: the metric computation sets `total1 = sum(durations1)`,
`total2 = sum(durations2)` (0 if empty), `TET = total1 + total2`,
`DI = (total1 - total2) / TET` when `TET > 0` and `DI = 0` when `TET = 0`;
with both sequences empty, `DI = 0` and `TET = 0`. -/
theorem computeMetrics_def (d1 d2 : List ℚ) :
    computeMetrics d1 d2 =
      ⟨d1.sum, d2.sum, d1.sum + d2.sum,
        if 0 < d1.sum + d2.sum then (d1.sum - d2.sum) / (d1.sum + d2.sum) else 0⟩ := by
  have h1 : (if d1.isEmpty then (0 : ℚ) else d1.sum) = d1.sum := by cases d1 <;> simp
  have h2 : (if d2.isEmpty then (0 : ℚ) else d2.sum) = d2.sum := by cases d2 <;> simp
  simp only [computeMetrics, h1, h2]

theorem c2_metrics (d1 d2 : List ℚ) :
    (computeMetrics d1 d2).obj1Total = d1.sum ∧
    (computeMetrics d1 d2).obj2Total = d2.sum ∧
    (computeMetrics d1 d2).tet = d1.sum + d2.sum ∧
    (0 < d1.sum + d2.sum →
      (computeMetrics d1 d2).di = (d1.sum - d2.sum) / (d1.sum + d2.sum)) ∧
    (d1.sum + d2.sum = 0 → (computeMetrics d1 d2).di = 0) ∧
    computeMetrics [] [] = ⟨0, 0, 0, 0⟩ := by
  simp only [computeMetrics_def]
  refine ⟨trivial, trivial, trivial, ?_, ?_, ?_⟩
  · intro h
    exact if_pos h
  · intro h
    rw [h]
    norm_num
  · norm_num

/-- Witness for C2 at durations `[3]`, `[1]` (positive TET) and at two empty
sequences (zero TET). -/
theorem c2_metrics_witness :
    (computeMetrics [(3 : ℚ)] [1]).di = ([(3 : ℚ)].sum - [(1 : ℚ)].sum) /
      ([(3 : ℚ)].sum + [(1 : ℚ)].sum) ∧
    (computeMetrics ([] : List ℚ) []).di = 0 :=
  ⟨(c2_metrics [3] [1]).2.2.2.1 (by norm_num),
   (c2_metrics [] []).2.2.2.2.1 (by norm_num)⟩

/-- Counterexample to claim C3: the raw value "abc" strips to the empty
string and is discarded by `if cleaned_str:` with no warning printed, while
the claim states a warning is logged for it. -/
theorem c3_counterexample :
    clean_timestamps [Cell.str "abc"] = ([], 0) ∧
    ¬0 < (clean_timestamps [Cell.str "abc"]).2 := by
  have h1 : stripNonNumeric "abc" = [] := by decide
  constructor
  · simp [clean_timestamps, h1]
  · simp [clean_timestamps, h1]

/-- Claim C3 (amended): coercion strips every character that is not a digit
or dot; a value whose stripped string is empty is discarded silently, a
value whose stripped string is non-empty but unparsable is discarded with a
logged warning, and either way the remaining values keep being processed;
"12.5s" yields 12.5. -/
theorem c3_amended (s : String) :
    (stripNonNumeric s = [] → clean_timestamps [Cell.str s] = ([], 0)) ∧
    (∀ q, parseCleaned (stripNonNumeric s) = some q →
      clean_timestamps [Cell.str s] = ([q], 0)) ∧
    (stripNonNumeric s ≠ [] → parseCleaned (stripNonNumeric s) = none →
      clean_timestamps [Cell.str s] = ([], 1)) ∧
    (∀ c rest, clean_timestamps (c :: rest) =
      ((clean_timestamps [c]).1 ++ (clean_timestamps rest).1,
        (clean_timestamps [c]).2 + (clean_timestamps rest).2)) := by
  refine ⟨?_, ?_, ?_, ?_⟩
  · intro h
    simp [clean_timestamps, h]
  · intro q hq
    by_cases he : stripNonNumeric s = []
    · rw [he] at hq
      simp [parseCleaned] at hq
    · have hne : (stripNonNumeric s).isEmpty = false := by
        simpa [List.isEmpty_iff] using he
      simp [clean_timestamps, hne, hq]
  · intro he hp
    have hne : (stripNonNumeric s).isEmpty = false := by
      simpa [List.isEmpty_iff] using he
    simp [clean_timestamps, hne, hp]
  · intro c rest
    cases c with
    | blank => simp [clean_timestamps]
    | num q => simp [clean_timestamps]
    | str s' =>
      by_cases he : (stripNonNumeric s').isEmpty
      · simp [clean_timestamps, he]
      · cases hp : parseCleaned (stripNonNumeric s') with
        | none =>
          simp [clean_timestamps, he, hp]
          omega
        | some q => simp [clean_timestamps, he, hp]

/-- Witness for C3 (amended) at the raw values "abc" (stripped empty,
silent discard), "12.5s" (parsed to 12.5) and "1.2.3" (unparsable, one
warning). -/
theorem c3_amended_witness :
    clean_timestamps [Cell.str "abc"] = ([], 0) ∧
    clean_timestamps [Cell.str "12.5s"] = ([25 / 2], 0) ∧
    clean_timestamps [Cell.str "1.2.3"] = ([], 1) := by
  refine ⟨(c3_amended "abc").1 (by decide), ?_, ?_⟩
  · refine (c3_amended "12.5s").2.1 (25 / 2) ?_
    have h1 : stripNonNumeric "12.5s" = ['1', '2', '.', '5'] := by decide
    have h2 : intPart ['1', '2', '.', '5'] = ['1', '2'] := by decide
    have h3 : fracPart ['1', '2', '.', '5'] = ['5'] := by decide
    have h4 : digitsVal ['1', '2'] = 12 := by decide
    have h5 : digitsVal ['5'] = 5 := by decide
    rw [h1]
    simp [parseCleaned, h2, h3, h4, h5]
    norm_num
  · refine (c3_amended "1.2.3").2.2.1 (by decide) ?_
    have h1 : stripNonNumeric "1.2.3" = ['1', '.', '2', '.', '3'] := by decide
    rw [h1]
    simp [parseCleaned]

/-- Counterexample to claim C4: durations carry no sign correction, so with
duration sequences [10] and [-5] the code computes DI = 15 / 5 = 3, outside
[-1, 1]. -/
theorem c4_counterexample :
    (computeMetrics [(10 : ℚ)] [-5]).di = 3 ∧
    ¬(-1 ≤ (computeMetrics [(10 : ℚ)] [-5]).di ∧
      (computeMetrics [(10 : ℚ)] [-5]).di ≤ 1) := by
  have h : (computeMetrics [(10 : ℚ)] [-5]).di = 3 := by
    simp [computeMetrics]
    norm_num
  exact ⟨h, by rw [h]; norm_num⟩

/-- Claim C4 (amended): when every bout duration of both sequences is
nonnegative, the computed DI lies in [-1, 1]. -/
theorem c4_amended (d1 d2 : List ℚ) (h1 : ∀ x ∈ d1, 0 ≤ x) (h2 : ∀ x ∈ d2, 0 ≤ x) :
    -1 ≤ (computeMetrics d1 d2).di ∧ (computeMetrics d1 d2).di ≤ 1 := by
  have s1 : 0 ≤ d1.sum := List.sum_nonneg h1
  have s2 : 0 ≤ d2.sum := List.sum_nonneg h2
  rw [computeMetrics_def]
  by_cases h : 0 < d1.sum + d2.sum
  · rw [show (⟨d1.sum, d2.sum, d1.sum + d2.sum,
        if 0 < d1.sum + d2.sum then (d1.sum - d2.sum) / (d1.sum + d2.sum)
        else 0⟩ : Metrics).di =
        if 0 < d1.sum + d2.sum then (d1.sum - d2.sum) / (d1.sum + d2.sum)
        else 0 from rfl, if_pos h]
    constructor
    · rw [le_div_iff₀ h]
      linarith
    · rw [div_le_one h]
      linarith
  · rw [show (⟨d1.sum, d2.sum, d1.sum + d2.sum,
        if 0 < d1.sum + d2.sum then (d1.sum - d2.sum) / (d1.sum + d2.sum)
        else 0⟩ : Metrics).di =
        if 0 < d1.sum + d2.sum then (d1.sum - d2.sum) / (d1.sum + d2.sum)
        else 0 from rfl, if_neg h]
    norm_num

/-- Witness for C4 (amended) at the nonnegative duration sequences [2] and
[1]. -/
theorem c4_amended_witness :
    -1 ≤ (computeMetrics [(2 : ℚ)] [1]).di ∧ (computeMetrics [(2 : ℚ)] [1]).di ≤ 1 :=
  c4_amended [2] [1] (by norm_num) (by norm_num)

/-- Claim C9: the cleanup keeps only digits and dots, so no minus sign
survives stripping for any input string, and the textual value "-3.5"
yields the positive 3.5 with no warning. -/
theorem c9_minus_stripped :
    (∀ s : String, '-' ∉ stripNonNumeric s) ∧
    clean_timestamps [Cell.str "-3.5"] = ([7 / 2], 0) := by
  constructor
  · intro s hm
    exact absurd (List.mem_filter.mp hm).2 (by decide)
  · have h1 : stripNonNumeric "-3.5" = ['3', '.', '5'] := by decide
    have h2 : intPart ['3', '.', '5'] = ['3'] := by decide
    have h3 : fracPart ['3', '.', '5'] = ['5'] := by decide
    have h4 : digitsVal ['3'] = 3 := by decide
    have h5 : digitsVal ['5'] = 5 := by decide
    have hne : (stripNonNumeric "-3.5").isEmpty = false := by rw [h1]; rfl
    have hp : parseCleaned (stripNonNumeric "-3.5") = some (7 / 2) := by
      rw [h1]
      simp [parseCleaned, h2, h3, h4, h5]
      norm_num
    simp [clean_timestamps, hne, hp]

theorem setEmptyCol_append (g : GDF) (name : String) (h : ∀ c ∈ g.cols, c.1 ≠ name) :
    setEmptyCol g name = ⟨g.cols ++ [(name, List.replicate (nRows g) (Cell.str ""))]⟩ := by
  have hany : (g.cols.any fun c => c.1 == name) = false := by
    simp only [List.any_eq_false, beq_iff_eq]
    exact h
  simp [setEmptyCol, hany]

theorem nRows_append_fill (g : GDF) (name : String) (v : Cell) :
    nRows ⟨g.cols ++ [(name, List.replicate (nRows g) v)]⟩ = nRows g := by
  rcases hc : g.cols with _ | ⟨c, rest⟩ <;> simp [nRows, hc]

theorem foldl_setEmptyCol (names : List String) (g : GDF)
    (hfresh : ∀ n ∈ names, ∀ c ∈ g.cols, c.1 ≠ n) (hnd : names.Nodup) :
    names.foldl setEmptyCol g =
      ⟨g.cols ++ names.map fun n => (n, List.replicate (nRows g) (Cell.str ""))⟩ := by
  induction names generalizing g with
  | nil => simp
  | cons n rest ih =>
    simp only [List.foldl_cons, List.map_cons]
    rw [setEmptyCol_append g n (hfresh n (by simp))]
    rw [ih ⟨g.cols ++ [(n, List.replicate (nRows g) (Cell.str ""))]⟩ ?_ hnd.of_cons]
    · rw [nRows_append_fill]
      simp
    · intro m hm c hc
      rcases List.mem_append.mp hc with hcl | hcr
      · exact hfresh m (by simp [hm]) c hcl
      · rw [List.mem_singleton.mp hcr]
        show n ≠ m
        intro hn
        subst hn
        exact (List.nodup_cons.mp hnd).1 hm

theorem addEmptyCols_eq (g : GDF) (h : ∀ n ∈ emptyColNames, ∀ c ∈ g.cols, c.1 ≠ n) :
    addEmptyCols g =
      ⟨g.cols ++ emptyColNames.map fun n => (n, List.replicate (nRows g) (Cell.str ""))⟩ :=
  foldl_setEmptyCol emptyColNames g h (by decide)

theorem map_fst_map_pad (l : List (String × List Cell)) (n : ℕ) :
    (l.map fun c => (c.1, padTo n c.2)).map Prod.fst = l.map Prod.fst := by
  rw [List.map_map]
  rfl

theorem concatCols_map_fst (a b : GDF) :
    (concatCols a b).cols.map Prod.fst = a.cols.map Prod.fst ++ b.cols.map Prod.fst := by
  simp only [concatCols, List.map_append, List.map_map]
  rfl

/-- Claim C6: for a stem with exactly one object group, the merger's output
is that group unchanged (the model carries values in row order, so the
written sheet is the group's rows 0-based). -/
theorem c6_single_group (g : GDF) : mergeStem [g] = g := rfl

/-- Counterexample to claim C5: when group 1 already owns a column named
`empty_3`, the scalar assignment `combined_df['empty_3'] = ''` overwrites
that column in place instead of appending a filler, so the combined sheet
has 5 columns instead of the claimed 1 + 4 + 1 and the overwritten column
now holds the empty string. -/
theorem c5_counterexample :
    (mergeStem [(⟨[("empty_3", [Cell.num 7])]⟩ : GDF), ⟨[("B", [Cell.num 8])]⟩]).cols.map
        Prod.fst = ["empty_3", "empty_1", "empty_2", "empty_4", "B"] ∧
    ((mergeStem [(⟨[("empty_3", [Cell.num 7])]⟩ : GDF), ⟨[("B", [Cell.num 8])]⟩]).cols.map
        Prod.fst).length ≠ 1 + 4 + 1 ∧
    (mergeStem [(⟨[("empty_3", [Cell.num 7])]⟩ : GDF), ⟨[("B", [Cell.num 8])]⟩]).cols.head? =
      some ("empty_3", [Cell.str ""]) := by
  refine ⟨by decide, by decide, by decide⟩

/-- Claim C5 (amended): for two object groups sharing a stem, neither of
which already owns a column named `empty_1` … `empty_4`, the combined
table's column order is [group-1 columns] + [the filler columns, exactly 4
of them] + [group-2 columns], and every cell of a filler column is empty
(the empty string, or missing where row-count padding applies). -/
theorem c5_amended (g1 g2 : GDF)
    (h1 : ∀ n ∈ emptyColNames, ∀ c ∈ g1.cols, c.1 ≠ n)
    (h2 : ∀ n ∈ emptyColNames, ∀ c ∈ g2.cols, c.1 ≠ n) :
    (mergeStem [g1, g2]).cols.map Prod.fst =
      g1.cols.map Prod.fst ++ emptyColNames ++ g2.cols.map Prod.fst ∧
    emptyColNames.length = 4 ∧
    ∀ col ∈ (mergeStem [g1, g2]).cols, col.1 ∈ emptyColNames →
      ∀ v ∈ col.2, v = Cell.str "" ∨ v = Cell.blank := by
  have hm : mergeStem [g1, g2] = concatCols (addEmptyCols g1) g2 := rfl
  rw [hm, addEmptyCols_eq g1 h1]
  refine ⟨?_, rfl, ?_⟩
  · rw [concatCols_map_fst]
    simp only [List.map_append, List.map_map]
    rfl
  · intro col hcol hname v hv
    simp only [concatCols] at hcol
    rcases List.mem_append.mp hcol with hl | hr
    · rcases List.mem_map.mp hl with ⟨c, hc, rfl⟩
      rcases List.mem_append.mp hc with hcg | hcf
      · exact absurd rfl (h1 _ hname c hcg)
      · rcases List.mem_map.mp hcf with ⟨n, hn, rfl⟩
        simp only [padTo] at hv
        rcases List.mem_append.mp hv with hvl | hvr
        · exact Or.inl (List.eq_of_mem_replicate hvl)
        · exact Or.inr (List.eq_of_mem_replicate hvr)
    · rcases List.mem_map.mp hr with ⟨c, hc, rfl⟩
      exact absurd rfl (h2 _ hname c hc)

/-- Witness for C5 (amended) at one-column groups A and B with no name
collision. -/
theorem c5_amended_witness :
    ((mergeStem [(⟨[("A", [Cell.num 1])]⟩ : GDF), ⟨[("B", [Cell.num 2])]⟩]).cols.map
        Prod.fst =
      ([("A", [Cell.num 1])] : List (String × List Cell)).map Prod.fst ++ emptyColNames ++
        ([("B", [Cell.num 2])] : List (String × List Cell)).map Prod.fst) ∧
    emptyColNames.length = 4 ∧
    ∀ col ∈ (mergeStem [(⟨[("A", [Cell.num 1])]⟩ : GDF), ⟨[("B", [Cell.num 2])]⟩]).cols,
      col.1 ∈ emptyColNames → ∀ v ∈ col.2, v = Cell.str "" ∨ v = Cell.blank :=
  c5_amended ⟨[("A", [Cell.num 1])]⟩ ⟨[("B", [Cell.num 2])]⟩ (by decide) (by decide)

theorem entryOf_cons_self (s : String) (ks : List String) (t : List (String × List String)) :
    entryOf s ((s, ks) :: t) = ks := by
  unfold entryOf
  rw [List.find?_cons_of_pos _ (by simp)]
  rfl

theorem addToGroups_cons_eq (s1 : String) (ks : List String)
    (rest : List (String × List String)) (k : String) :
    addToGroups ((s1, ks) :: rest) s1 k = (s1, ks ++ [k]) :: rest := by
  simp [addToGroups]

theorem addToGroups_cons_ne (s1 st : String) (ks : List String)
    (rest : List (String × List String)) (k : String) (h : s1 ≠ st) :
    addToGroups ((s1, ks) :: rest) st k = (s1, ks) :: addToGroups rest st k := by
  simp [addToGroups, h]

theorem entryOf_cons_ne (s1 s : String) (ks : List String) (t : List (String × List String))
    (h : s1 ≠ s) : entryOf s ((s1, ks) :: t) = entryOf s t := by
  unfold entryOf
  rw [List.find?_cons_of_neg _ (by simp [h])]

theorem entryOf_addToGroups (gs : List (String × List String)) (st k s : String) :
    entryOf s (addToGroups gs st k) =
      if st = s then entryOf s gs ++ [k] else entryOf s gs := by
  induction gs with
  | nil =>
    by_cases h : st = s
    · subst h
      rw [if_pos rfl]
      show entryOf st [(st, [k])] = entryOf st [] ++ [k]
      rw [entryOf_cons_self]
      rfl
    · rw [if_neg h]
      show entryOf s [(st, [k])] = entryOf s []
      rw [entryOf_cons_ne st s [k] [] h]
  | cons e rest ih =>
    obtain ⟨s1, ks⟩ := e
    by_cases h1 : s1 = st
    · subst h1
      rw [addToGroups_cons_eq]
      by_cases h2 : s1 = s
      · subst h2
        rw [entryOf_cons_self, if_pos rfl, entryOf_cons_self]
      · rw [entryOf_cons_ne s1 s _ _ h2, if_neg (fun h => h2 h),
          entryOf_cons_ne s1 s _ _ h2]
    · rw [addToGroups_cons_ne s1 st ks rest k h1]
      by_cases h2 : s1 = s
      · subst h2
        rw [entryOf_cons_self, if_neg (fun h => h1 h.symm), entryOf_cons_self]
      · rw [entryOf_cons_ne s1 s _ _ h2, ih, entryOf_cons_ne s1 s _ _ h2]

theorem entryOf_foldl (keys : List String) (gs : List (String × List String)) (s : String) :
    entryOf s (keys.foldl (fun acc k => addToGroups acc (stemOf k) k) gs) =
      entryOf s gs ++ keys.filter (fun k => stemOf k == s) := by
  induction keys generalizing gs with
  | nil => simp
  | cons k rest ih =>
    rw [List.foldl_cons, ih, entryOf_addToGroups]
    by_cases h : stemOf k = s
    · simp [List.filter_cons, h]
    · simp [List.filter_cons, h]

theorem buildGroups_entryOf (keys : List String) (s : String) :
    entryOf s (buildGroups keys) = keys.filter (fun k => stemOf k == s) := by
  have h := entryOf_foldl keys [] s
  simpa [buildGroups, entryOf] using h

theorem mem_fst_addToGroups (gs : List (String × List String)) (st k s : String) :
    s ∈ (addToGroups gs st k).map Prod.fst ↔ s ∈ gs.map Prod.fst ∨ s = st := by
  induction gs with
  | nil => simp [addToGroups]
  | cons e rest ih =>
    obtain ⟨s1, ks⟩ := e
    by_cases h : s1 = st
    · subst h
      rw [addToGroups_cons_eq]
      simp
      tauto
    · rw [addToGroups_cons_ne s1 st ks rest k h]
      simp [ih]
      tauto

theorem mem_fst_foldlGroups (keys : List String) (gs : List (String × List String))
    (s : String) :
    s ∈ (keys.foldl (fun acc k => addToGroups acc (stemOf k) k) gs).map Prod.fst ↔
      s ∈ gs.map Prod.fst ∨ s ∈ keys.map stemOf := by
  induction keys generalizing gs with
  | nil => simp
  | cons k rest ih =>
    rw [List.foldl_cons, ih, mem_fst_addToGroups]
    simp
    tauto

theorem mem_fst_buildGroups (keys : List String) (s : String) :
    s ∈ (buildGroups keys).map Prod.fst ↔ s ∈ keys.map stemOf := by
  have h := mem_fst_foldlGroups keys [] s
  simpa [buildGroups] using h

theorem find_entryOf (gs : List (String × List String)) (s : String)
    (h : s ∈ gs.map Prod.fst) : (s, entryOf s gs) ∈ gs := by
  induction gs with
  | nil => simp at h
  | cons e rest ih =>
    obtain ⟨s1, ks⟩ := e
    by_cases he : s1 = s
    · subst he
      rw [entryOf_cons_self]
      exact List.mem_cons_self _ _
    · rw [entryOf_cons_ne s1 s ks rest he]
      rcases List.mem_cons.mp (by simpa using h : s ∈ s1 :: rest.map Prod.fst) with h1 | h2
      · exact absurd h1.symm he
      · exact List.mem_cons_of_mem _ (ih h2)

theorem filter_eq_singleton {p : String → Bool} (l : List String) (x : String)
    (hnd : l.Nodup) (hx : x ∈ l) (hp : ∀ y ∈ l, p y = true ↔ y = x) :
    l.filter p = [x] := by
  induction l with
  | nil => cases hx
  | cons a rest ih =>
    rcases List.mem_cons.mp hx with rfl | hxr
    · rw [List.filter_cons_of_pos (by rw [hp x (by simp)])]
      have hnil : rest.filter p = [] := by
        rw [List.filter_eq_nil_iff]
        intro y hy hpy
        have : y = x := (hp y (by simp [hy])).mp hpy
        exact (List.nodup_cons.mp hnd).1 (this ▸ hy)
      rw [hnil]
    · have ha : ¬p a = true := by
        intro hpa
        have : a = x := (hp a (by simp)).mp hpa
        exact (List.nodup_cons.mp hnd).1 (this ▸ hxr)
      rw [List.filter_cons_of_neg (by simpa using ha)]
      exact ih (List.nodup_cons.mp hnd).2 hxr (fun y hy => hp y (by simp [hy]))

theorem lookupKey_eq (sd : List (String × GDF)) (k : String) (g : GDF)
    (h : (k, g) ∈ sd) (hnd : (sd.map Prod.fst).Nodup) : lookupKey sd k = some g := by
  induction sd with
  | nil => cases h
  | cons e rest ih =>
    rcases List.mem_cons.mp h with rfl | hr
    · unfold lookupKey
      rw [List.find?_cons_of_pos _ (by simp)]
      rfl
    · have hnd' : (e.1 :: rest.map Prod.fst).Nodup := by simpa using hnd
      have hne : ¬e.1 = k := by
        intro he
        exact (List.nodup_cons.mp hnd').1 (he ▸ List.mem_map.mpr ⟨(k, g), hr, rfl⟩)
      unfold lookupKey
      rw [List.find?_cons_of_neg _ (by simpa using hne)]
      exact ih hr (List.nodup_cons.mp hnd').2

/-- Counterexample to claim C10: identifier 12 is a value other than 1 or
2, yet its key "S_obj_12" does match the stem-splitting pattern
`_obj_[12]` (it contains "_obj_1"), so its stem is "S": with groups for
ids 1 and 12 on sheet S, the output holds a single sheet "S" that merges
both, and no separate "S_obj_12" sheet exists. -/
theorem c10_counterexample :
    keyFor "S" 12 = "S_obj_12" ∧
    stemOf "S_obj_12" = "S" ∧
    (process_excel_by_object_id
        [("S_obj_1", ⟨[("A", [Cell.num 1])]⟩), ("S_obj_12", ⟨[("B", [Cell.num 2])]⟩)]).map
      Prod.fst = ["S"] ∧
    "S_obj_12" ∉
      (process_excel_by_object_id
          [("S_obj_1", ⟨[("A", [Cell.num 1])]⟩), ("S_obj_12", ⟨[("B", [Cell.num 2])]⟩)]).map
        Prod.fst := by
  refine ⟨by decide, by decide, by decide, by decide⟩

/-- Claim C10 (amended): a separated-data group whose key matches no
occurrence of `_obj_1`/`_obj_2` (so its stem is the whole key) and whose
key is no other key's stem becomes its own stem and is emitted unchanged
as a single-group output sheet; keys such as "S_obj_12" (identifier 12)
do match the pattern and are merged under stem "S" instead. -/
theorem c10_amended (sd : List (String × GDF)) (k : String) (g : GDF)
    (hmem : (k, g) ∈ sd) (hnd : (sd.map Prod.fst).Nodup)
    (hself : stemOf k = k)
    (hothers : ∀ k2 ∈ sd.map Prod.fst, stemOf k2 = k → k2 = k) :
    (k, g) ∈ process_excel_by_object_id sd := by
  have hk : k ∈ sd.map Prod.fst := List.mem_map.mpr ⟨(k, g), hmem, rfl⟩
  have hstem_mem : k ∈ (buildGroups (sd.map Prod.fst)).map Prod.fst := by
    rw [mem_fst_buildGroups]
    exact List.mem_map.mpr ⟨k, hk, hself⟩
  have hentry : entryOf k (buildGroups (sd.map Prod.fst)) = [k] := by
    rw [buildGroups_entryOf]
    exact filter_eq_singleton (sd.map Prod.fst) k hnd hk
      (fun y hy => by
        constructor
        · intro hpy
          exact hothers y hy (by simpa using hpy)
        · intro hyx
          subst hyx
          simp [hself])
  have hpair : (k, [k]) ∈ buildGroups (sd.map Prod.fst) := by
    have := find_entryOf (buildGroups (sd.map Prod.fst)) k hstem_mem
    rwa [hentry] at this
  have hmem2 : (k, mergeStem ((sortStrings [k]).filterMap (lookupKey sd))) ∈
      process_excel_by_object_id sd := by
    unfold process_excel_by_object_id
    exact List.mem_map.mpr ⟨(k, [k]), hpair, rfl⟩
  have hsort : sortStrings [k] = [k] := rfl
  rw [hsort] at hmem2
  have hlook : List.filterMap (lookupKey sd) [k] = [g] := by
    rw [List.filterMap_cons, lookupKey_eq sd k g hmem hnd]
    rfl
  rw [hlook] at hmem2
  exact hmem2

/-- Witness for C10 (amended): on a workbook whose only separated group has
key "S_obj_3" (identifier 3), that group is its own stem and appears
unchanged in the output. -/
theorem c10_amended_witness :
    ("S_obj_3", (⟨[("A", [Cell.num 1])]⟩ : GDF)) ∈
      process_excel_by_object_id [("S_obj_3", ⟨[("A", [Cell.num 1])]⟩)] :=
  c10_amended [("S_obj_3", ⟨[("A", [Cell.num 1])]⟩)] "S_obj_3" ⟨[("A", [Cell.num 1])]⟩
    (List.mem_singleton_self _) (by simp) (by decide) (by decide)

theorem firstFillerIdx_spec : ∀ (hs : List Header) (i : ℕ),
    firstFillerIdx hs = some i →
      (∃ hd, hs[i]? = some hd ∧ isFillerHeader hd = true) ∧
      ∀ j, j < i → ∀ h2, hs[j]? = some h2 → isFillerHeader h2 = false := by
  intro hs
  induction hs with
  | nil => intro i h; simp [firstFillerIdx] at h
  | cons hd tl ih =>
    intro i h
    by_cases hf : isFillerHeader hd = true
    · rw [firstFillerIdx, if_pos hf] at h
      obtain rfl : (0 : ℕ) = i := by simpa using h
      exact ⟨⟨hd, by simp, hf⟩, fun j hj => by omega⟩
    · rw [firstFillerIdx, if_neg hf] at h
      obtain ⟨i0, hi0, rfl⟩ := Option.map_eq_some'.mp h
      obtain ⟨⟨h1, hh1, hfh1⟩, hprev⟩ := ih i0 hi0
      refine ⟨⟨h1, by simpa using hh1, hfh1⟩, ?_⟩
      intro j hj h2 hh2
      cases j with
      | zero =>
        have he : hd = h2 := by simpa using hh2
        rw [← he]
        exact eq_false_of_ne_true hf
      | succ j0 =>
        exact hprev j0 (by omega) h2 (by simpa using hh2)

theorem firstFillerIdx_none : ∀ (hs : List Header),
    firstFillerIdx hs = none → ∀ hd ∈ hs, isFillerHeader hd = false := by
  intro hs
  induction hs with
  | nil => intro _ hd hhd; cases hhd
  | cons h0 tl ih =>
    intro hnone hd hhd
    by_cases hf : isFillerHeader h0 = true
    · rw [firstFillerIdx, if_pos hf] at hnone
      cases hnone
    · rw [firstFillerIdx, if_neg hf] at hnone
      rcases List.mem_cons.mp hhd with rfl | htl
      · exact eq_false_of_ne_true hf
      · exact ih (by simpa using hnone) hd htl

/-- Counterexample to claim C7: a table whose very first header is blank is
classified Formatted with splitIndex 0, but then the object-1 block
`df.iloc[:, :0]` has no column 0: extraction raises an `IndexError`
(modelled as `none`) instead of producing any timestamp series. -/
theorem c7_counterexample :
    detectSplit ⟨[(Header.named "", [Cell.num 1, Cell.num 2])]⟩ = some 0 ∧
    extractTimestamps ⟨[(Header.named "", [Cell.num 1, Cell.num 2])]⟩ = none := by
  refine ⟨by decide, by decide⟩

/-- Claim C7 (amended): a table with a filler-pattern, blank or missing
header is classified Formatted with splitIndex the first such column
index; when splitIndex ≥ 1, object 1's timestamps are column 0 and object
2's come from column splitIndex + 4 when in bounds, else the empty series;
when splitIndex = 0, extraction fails with an IndexError instead; with no
such header the table is Legacy. -/
theorem c7_amended (df : DF) :
    (∀ i, detectSplit df = some i →
      (∃ hd, (df.cols.map Prod.fst)[i]? = some hd ∧ isFillerHeader hd = true) ∧
      (∀ j, j < i → ∀ h2, (df.cols.map Prod.fst)[j]? = some h2 →
        isFillerHeader h2 = false) ∧
      (0 < i → ∃ c0, df.cols[0]? = some c0 ∧
        extractTimestamps df =
          some (dropna c0.2, ((df.cols[i + 4]?).map fun c => dropna c.2).getD [])) ∧
      (i = 0 → extractTimestamps df = none)) ∧
    (detectSplit df = none → ∀ hd ∈ df.cols.map Prod.fst, isFillerHeader hd = false) := by
  constructor
  · intro i hdet
    obtain ⟨⟨hd, hh, hfh⟩, hprev⟩ := firstFillerIdx_spec (df.cols.map Prod.fst) i hdet
    refine ⟨⟨hd, hh, hfh⟩, hprev, ?_, ?_⟩
    · intro hipos
      have hlen : i < df.cols.length := by
        by_contra hge
        rw [List.getElem?_eq_none (by simpa using hge)] at hh
        cases hh
      rcases hc : df.cols with _ | ⟨c0, cs⟩
      · rw [hc] at hlen
        simp at hlen
      · refine ⟨c0, by simp, ?_⟩
        obtain ⟨i0, rfl⟩ : ∃ i0, i = i0 + 1 := ⟨i - 1, by omega⟩
        simp only [extractTimestamps, hdet]
        rw [hc]
        rfl
    · intro hi0
      subst hi0
      simp only [extractTimestamps, hdet]
      rfl
  · intro hdet
    exact firstFillerIdx_none (df.cols.map Prod.fst) hdet

/-- Witness for C7 (amended) on a six-column formatted table with
splitIndex 1: object 1's series is column 0 and object 2's is column 5. -/
theorem c7_amended_witness :
    ∃ c0, ((⟨[(Header.named "A", [Cell.num 1, Cell.num 3]),
        (Header.named "empty_1", []), (Header.named "empty_2", []),
        (Header.named "empty_3", []), (Header.named "empty_4", []),
        (Header.named "B", [Cell.num 2, Cell.num 6])]⟩ : DF)).cols[0]? = some c0 ∧
      extractTimestamps ⟨[(Header.named "A", [Cell.num 1, Cell.num 3]),
        (Header.named "empty_1", []), (Header.named "empty_2", []),
        (Header.named "empty_3", []), (Header.named "empty_4", []),
        (Header.named "B", [Cell.num 2, Cell.num 6])]⟩ =
        some (dropna c0.2,
          (((⟨[(Header.named "A", [Cell.num 1, Cell.num 3]),
              (Header.named "empty_1", []), (Header.named "empty_2", []),
              (Header.named "empty_3", []), (Header.named "empty_4", []),
              (Header.named "B", [Cell.num 2, Cell.num 6])]⟩ : DF)).cols[1 + 4]?.map
            fun c => dropna c.2).getD []) :=
  ((c7_amended ⟨[(Header.named "A", [Cell.num 1, Cell.num 3]),
      (Header.named "empty_1", []), (Header.named "empty_2", []),
      (Header.named "empty_3", []), (Header.named "empty_4", []),
      (Header.named "B", [Cell.num 2, Cell.num 6])]⟩).1 1 (by decide)).2.2.1 (by decide)

theorem foldl_catch (l : List (String × DF)) (acc : List Summary) :
    l.foldl (fun acc s =>
      match process_worksheet_for_di s.2 s.1 with
      | some summary => acc ++ [summary]
      | none => acc) acc =
      acc ++ l.filterMap fun s => process_worksheet_for_di s.2 s.1 := by
  induction l generalizing acc with
  | nil => simp
  | cons e rest ih =>
    rw [List.foldl_cons]
    cases hp : process_worksheet_for_di e.2 e.1 with
    | none =>
      rw [ih]
      simp [List.filterMap_cons, hp]
    | some summ =>
      rw [ih]
      simp [List.filterMap_cons, hp, List.append_assoc]

/-- Claim C8: the orchestrator processes every sheet except the one named
"Consolidated Data" in order; a sheet whose processing raises is caught at
the sheet boundary and is simply absent from the collected summaries, and
the remaining sheets are still processed (the run over a concatenation is
the concatenation of the runs, and a reserved-name sheet contributes
nothing). -/
theorem c8_orchestrator (wb : List (String × DF)) :
    calculate_discrimination_index wb =
      (wb.filter fun s => s.1 != "Consolidated Data").filterMap
        (fun s => process_worksheet_for_di s.2 s.1) ∧
    (∀ pre post : List (String × DF),
      calculate_discrimination_index (pre ++ post) =
        calculate_discrimination_index pre ++ calculate_discrimination_index post) ∧
    (∀ (df : DF) (rest : List (String × DF)),
      calculate_discrimination_index (("Consolidated Data", df) :: rest) =
        calculate_discrimination_index rest) ∧
    (∀ (n : String) (df : DF) (rest : List (String × DF)),
      n ≠ "Consolidated Data" → process_worksheet_for_di df n = none →
      calculate_discrimination_index ((n, df) :: rest) =
        calculate_discrimination_index rest) := by
  have key : ∀ l : List (String × DF),
      calculate_discrimination_index l =
        (l.filter fun s => s.1 != "Consolidated Data").filterMap
          (fun s => process_worksheet_for_di s.2 s.1) := by
    intro l
    unfold calculate_discrimination_index
    rw [foldl_catch]
    simp
  refine ⟨key wb, ?_, ?_, ?_⟩
  · intro pre post
    rw [key, key, key, List.filter_append, List.filterMap_append]
  · intro df rest
    rw [key, key]
    simp
  · intro n df rest hn hfail
    rw [key, key]
    rw [List.filter_cons_of_pos (by simpa using hn)]
    rw [List.filterMap_cons_none (by simpa using hfail)]

/-- Witness for C8: a sheet with no columns raises during extraction, is
skipped, and the run equals the run without it. -/
theorem c8_orchestrator_witness :
    calculate_discrimination_index [("X", (⟨[]⟩ : DF))] =
      calculate_discrimination_index [] :=
  (c8_orchestrator []).2.2.2 "X" ⟨[]⟩ [] (by decide) (by decide)

end NORAnalysis
